import Mathlib

/-!
Shallow embedding of the topology decomposition and slot-compatibility
engine of autografs (src/autografs/utils/topology.py), together with
theorems checking the natural-language specification against it.

Conventions of the embedding:
* machine floats become exact rationals;
* python dicts (keyed by atom index, insertion-ordered) become
  association lists built in iteration order;
* python exceptions become an explicit error monad (Except PyErr);
* the external collaborators (ase distance/neighbor queries, the
  symmetry classifier, the space-group equivalent-sites query together
  with the numpy norm computation on its results) are parameters of the
  embedding, bundled in the Externals structure.
-/

deriving instance DecidableEq for Except

namespace Autografs

/-- A 3-vector of exact rationals, standing for a numpy float64 triple. -/
abbrev Vec3 := ℚ × ℚ × ℚ

/-- Per-atom data of an ase.Atoms object, as far as the core reads or
writes it: atomic numbers, cartesian positions, float tags, and the
3x3 cell matrix (rows). -/
structure AtomsData where
  numbers : List ℕ
  positions : List Vec3
  tags : List ℚ
  cell : Vec3 × Vec3 × Vec3
deriving Repr, DecidableEq

/-- A fragment: the Atoms("X"*n, positions, tags=...) object built in
_analyze for one real atom (all atomic numbers are 0, so only positions
and tags are recorded). -/
structure Fragment where
  positions : List Vec3
  tags : List ℚ
deriving Repr, DecidableEq

/-- The Topology container: name, stored atoms, and the derived maps
(fragments, shapes, pointgroups keyed by real-atom index as association
lists in insertion order) plus the equivalence-class list. -/
structure Topology where
  name : String
  atoms : AtomsData
  fragments : List (ℕ × Fragment)
  shapes : List (ℕ × List ℤ)
  pointgroups : List (ℕ × String)
  equivalent_sites : List (List ℕ)
deriving Repr, DecidableEq

/-- Python runtime exceptions the embedded code can raise, plus the
MalformedTopologyError named by the specification (which the source
never defines nor raises; it is included so that statements can compare
the raised error against it). -/
inductive PyErr where
  | valueError
  | indexError
  | keyError
  | malformedTopologyError
deriving Repr, DecidableEq

/-- The skin constant of _get_cutoffs: skin = 5e-3. -/
def skin : ℚ := mkRat 5 1000

/-- The tolerance used in the equivalent-sites matching: 1e-6. -/
def tol : ℚ := mkRat 1 1000000

/-- numpy max over a nonempty array (we never rely on the [] case,
where numpy would raise; the embedding returns 0 there). -/
def listMax : List ℚ → ℚ
  | [] => 0
  | x :: xs => xs.foldl max x

/-- numpy min over a nonempty array (the [] case is unused). -/
def listMin : List ℚ → ℚ
  | [] => 0
  | x :: xs => xs.foldl min x

/-- Helper for argmin: scan with current index, best index and best value. -/
def argminAux : List ℚ → ℕ → ℕ → ℚ → ℕ
  | [], _, best, _ => best
  | x :: xs, i, best, bv =>
      if x < bv then argminAux xs (i + 1) i x else argminAux xs (i + 1) best bv

/-- numpy argmin: index of the first minimum of the array ([] unused). -/
def argmin : List ℚ → ℕ
  | [] => 0
  | x :: xs => argminAux xs 1 0 x

/-- Indices of the dummy (connector) atoms: numpy.where(numbers == 0)[0]. -/
def XisOf (numbers : List ℕ) : List ℕ :=
  (List.range numbers.length).filter (fun i => numbers.getD i 0 = 0)

/-- Indices of the real atoms: numpy.where(numbers > 0)[0]. -/
def AisOf (numbers : List ℕ) : List ℕ :=
  (List.range numbers.length).filter (fun i => 0 < numbers.getD i 0)

/-- The tags written by _analyze: tags = zeros(len); tags[Xis] = Xis + 1,
i.e. a connector at index i receives tag i+1 and a real atom receives 0. -/
def tagsOf (numbers : List ℕ) : List ℚ :=
  (List.range numbers.length).map
    (fun i => if numbers.getD i 0 = 0 then ((i : ℚ) + 1) else 0)

/-- Cutoff for one real atom in _get_cutoffs, from its coordination
number (atomic number) and its minimum-image distances to all dummies:
if coord < len(dists), numpy.argpartition selects coord indices whose
values are the coord smallest ones and the cutoff is their max (the
coord-th order statistic, independent of tie-breaking); otherwise the
cutoff is dists.max(). -/
def getCutoff (coord : ℕ) (dists : List ℚ) : ℚ :=
  if coord < dists.length then
    listMax ((dists.insertionSort (· ≤ ·)).take coord)
  else
    listMax dists

/-- Full _get_cutoffs: cutoffs = zeros(len(atoms)) + skin, then for each
real-atom index the entry is overwritten with that atom's computed
cutoff (note: overwritten, not incremented by skin). dists ai stands
for atoms.get_distances(ai, Xis, mic=True). -/
def getCutoffs (numbers : List ℕ) (dists : ℕ → List ℚ) (Ais : List ℕ) : List ℚ :=
  Ais.foldl
    (fun cs ai => cs.set ai (getCutoff (numbers.getD ai 0) (dists ai)))
    (List.replicate numbers.length skin)

/-- The arguments _analyze passes to the ase NeighborList constructor. -/
structure NLParams where
  cutoffs : List ℚ
  bothways : Bool
  self_interaction : Bool
  nl_skin : ℚ
deriving Repr, DecidableEq

/-- NeighborList(cutoffs=self._get_cutoffs(...), bothways=True,
self_interaction=False, skin=0.0) as built in _analyze. -/
def nlParamsOf (numbers : List ℕ) (dists : ℕ → List ℚ) : NLParams :=
  { cutoffs := getCutoffs numbers dists (AisOf numbers)
    bothways := true
    self_interaction := false
    nl_skin := 0 }

/-- Componentwise addition of 3-vectors. -/
def vadd (a b : Vec3) : Vec3 :=
  (a.1 + b.1, a.2.1 + b.2.1, a.2.2 + b.2.2)

/-- Scalar multiplication of a 3-vector. -/
def vsmul (c : ℚ) (a : Vec3) : Vec3 :=
  (c * a.1, c * a.2.1, c * a.2.2)

/-- no.dot(cell) for one integer offset triple and the cell rows. -/
def offsetDotCell (o : ℤ × ℤ × ℤ) (cell : Vec3 × Vec3 × Vec3) : Vec3 :=
  vadd (vsmul (o.1 : ℚ) cell.1)
    (vadd (vsmul (o.2.1 : ℚ) cell.2.1) (vsmul (o.2.2 : ℚ) cell.2.2))

/-- The filter in _analyze keeping only dummy neighbors:
[(idx, off) for idx, off in zip(ni, no) if idx in Xis]. -/
def extractPairs (Xis : List ℕ) (nbrs : List (ℕ × (ℤ × ℤ × ℤ))) :
    List (ℕ × (ℤ × ℤ × ℤ)) :=
  nbrs.filter (fun p => p.1 ∈ Xis)

/-- The fragment built in _analyze for one real atom: positions are
atoms.positions[ni] + no.dot(cell) and tags are tags[ni]. -/
def buildFragment (atoms : AtomsData) (tags : List ℚ)
    (pairs : List (ℕ × (ℤ × ℤ × ℤ))) : Fragment :=
  { positions :=
      pairs.map (fun p =>
        vadd (atoms.positions.getD p.1 (0, 0, 0)) (offsetDotCell p.2 atoms.cell))
    tags := pairs.map (fun p => tags.getD p.1 0) }

/-- The per-real-atom extraction loop of _analyze.  For each real atom
the dummy neighbors are kept; when none remain, the source raises a
ValueError (the tuple unpacking of an empty zip), modelled here as
Except.error PyErr.valueError.  Otherwise the fragment, its shape
(classifier called with max_order = number of connectors) and its point
group are recorded in iteration order. -/
def extractLoop (atoms : AtomsData) (tags : List ℚ) (Xis : List ℕ)
    (nbrs : ℕ → List (ℕ × (ℤ × ℤ × ℤ)))
    (shapeOf : Fragment → ℕ → List ℤ) (pgOf : Fragment → String) :
    List ℕ →
      Except PyErr (List (ℕ × Fragment) × List (ℕ × List ℤ) × List (ℕ × String))
  | [] => .ok ([], [], [])
  | ai :: rest =>
    let pairs := extractPairs Xis (nbrs ai)
    if pairs.isEmpty then .error .valueError
    else
      let frag := buildFragment atoms tags pairs
      match extractLoop atoms tags Xis nbrs shapeOf pgOf rest with
      | .error e => .error e
      | .ok (fs, shs, pgs) =>
        .ok ((ai, frag) :: fs, (ai, shapeOf frag pairs.length) :: shs,
          (ai, pgOf frag) :: pgs)

/-- Matching step of the equivalence-site search for one returned site,
given norms = numpy.linalg.norm(scaled_positions - site, axis=1): the
argmin is recorded when the min is below 1e-6, and again for the
pbc-folded norms numpy.abs(norms - 1.0). -/
def siteMatchIndices (norms : List ℚ) : List ℕ :=
  (if listMin norms < tol then [argmin norms] else []) ++
    (let norms2 := norms.map (fun x => |x - 1|)
     if listMin norms2 < tol then [argmin norms2] else [])

/-- All matched indices for one real atom (concatenated over the sites
returned by the space-group query, in order), then filtered to real
atoms: [idx for idx in these_indices if idx in Ais]. -/
def matchedFor (siteNormsA : List (List ℚ)) (Ais : List ℕ) : List ℕ :=
  (siteNormsA.flatMap siteMatchIndices).filter (fun i => i ∈ Ais)

/-- The seen-indices loop of the equivalence-class construction: each
real atom not yet seen contributes the class M ai (its matched and
filtered indices); its members are appended to the seen list. -/
def buildClassesAux (M : ℕ → List ℕ) :
    List ℕ → List ℕ → List (List ℕ) → List (List ℕ)
  | [], _, acc => acc
  | ai :: rest, seen, acc =>
    if ai ∈ seen then buildClassesAux M rest seen acc
    else buildClassesAux M rest (seen ++ M ai) (acc ++ [M ai])

/-- Equivalence classes as appended to self.equivalent_sites. -/
def buildClasses (Ais : List ℕ) (M : ℕ → List ℕ) : List (List ℕ) :=
  buildClassesAux M Ais [] []

/-- The external collaborators of _analyze, taken as parameters:
minimum-image distances to the dummies (ase get_distances with
mic=True), the neighbor query on the built NeighborList, the symmetry
classifier (shape with a max_order bound, and the Schoenflies point
group at tol=0.1), and for each real atom the list of norm arrays
produced from the space-group equivalent-sites query (one norms array
per returned site, over all scaled positions). -/
structure Externals where
  dists : ℕ → List ℚ
  nbrs : ℕ → List (ℕ × (ℤ × ℤ × ℤ))
  shapeOf : Fragment → ℕ → List ℤ
  pgOf : Fragment → String
  siteNorms : ℕ → List (List ℚ)

/-- The _analyze method.  It writes the tags onto the stored atoms
(zeros, then index+1 on each dummy), builds the NeighborList (see
nlParamsOf), extracts one fragment/shape/pointgroup per real atom and
appends the equivalence classes; any raised exception aborts the whole
construction. -/
def analyze (t : Topology) (ext : Externals) : Except PyErr Topology :=
  match extractLoop { t.atoms with tags := tagsOf t.atoms.numbers }
      (tagsOf t.atoms.numbers) (XisOf t.atoms.numbers)
      ext.nbrs ext.shapeOf ext.pgOf (AisOf t.atoms.numbers) with
  | .error e => .error e
  | .ok (fs, shs, pgs) =>
    .ok { t with
          atoms := { t.atoms with tags := tagsOf t.atoms.numbers }
          fragments := t.fragments ++ fs
          shapes := t.shapes ++ shs
          pointgroups := t.pointgroups ++ pgs
          equivalent_sites := t.equivalent_sites ++
            buildClasses (AisOf t.atoms.numbers)
              (fun ai => matchedFor (ext.siteNorms ai) (AisOf t.atoms.numbers)) }

/-- A Topology object as first initialized by the constructor, before
_analyze runs: empty derived maps. -/
def initTopology (name : String) (atoms : AtomsData) : Topology :=
  { name := name, atoms := atoms, fragments := [], shapes := []
    pointgroups := [], equivalent_sites := [] }

/-- The Topology constructor with analyze=True: empty derived maps,
then _analyze; on an exception no object reaches the caller. -/
def newTopology (name : String) (atoms : AtomsData) (ext : Externals) :
    Except PyErr Topology :=
  analyze (initTopology name atoms) ext

/-- Topology.copy: a new instance built with analyze=False (hence empty
pointgroups and equivalent_sites), the atoms copied, then fragments and
shapes replaced by deep copies of the originals (value copies in this
embedding). -/
def Topology.copyT (t : Topology) : Topology :=
  { name := t.name
    atoms := t.atoms
    fragments := t.fragments
    shapes := t.shapes
    pointgroups := []
    equivalent_sites := [] }

/-- Topology.get_fragments: for each stored fragment, frag.set_tags
(numpy.ones(len(frag)) * idx) mutates the stored fragment in place,
then the mutated fragments are concatenated.  The embedding returns the
post-call Topology (with the mutated fragment map) together with the
concatenation. -/
def Topology.getFragments (t : Topology) : Topology × Fragment :=
  let updated := t.fragments.map
    (fun p => (p.1, { p.2 with tags := List.replicate p.2.positions.length (p.1 : ℚ) }))
  ({ t with fragments := updated },
   { positions := (updated.map (fun p => p.2.positions)).flatten
     tags := (updated.map (fun p => p.2.tags)).flatten })

/-- Python list[-1] (IndexError on an empty list). -/
def pyLast {α : Type} : List α → Except PyErr α
  | [] => .error .indexError
  | [x] => .ok x
  | _ :: x :: xs => pyLast (x :: xs)

/-- Python dict lookup d[k] (KeyError when the key is absent). -/
def dictGet {α : Type} (d : List (ℕ × α)) (k : ℕ) : Except PyErr α :=
  match d.find? (fun p => p.1 = k) with
  | some p => .ok p.2
  | none => .error .keyError

/-- The expression [s for s in self.equivalent_sites if idx in s][0]
(IndexError when no class contains idx). -/
def firstClassContaining (classes : List (List ℕ)) (idx : ℕ) :
    Except PyErr (List ℕ) :=
  match classes.find? (fun s => idx ∈ s) with
  | some s => .ok s
  | none => .error .indexError

/-- The restriction [s for s in eq_sites if self.shapes[s][-1] == shape[-1]],
with the lookups evaluated per member in source order. -/
def restrictMult (shapes : List (ℕ × List ℤ)) (shape : List ℤ) :
    List ℕ → Except PyErr (List ℕ)
  | [] => .ok []
  | s :: ss =>
    match dictGet shapes s with
    | .error e => .error e
    | .ok sh =>
      match pyLast sh with
      | .error e => .error e
      | .ok l1 =>
        match pyLast shape with
        | .error e => .error e
        | .ok l2 =>
          match restrictMult shapes shape ss with
          | .error e => .error e
          | .ok rest => .ok (if l1 = l2 then s :: rest else rest)

/-- The test (sbu.shape[:-1] - shape[:-1] >= 0).all() with numpy
broadcasting: equal lengths compare elementwise, a length-one operand
broadcasts, anything else raises a ValueError; .all() of an empty
result is True. -/
def npAllSubNonneg (a b : List ℤ) : Except PyErr Bool :=
  if a.length = b.length then
    .ok ((a.zip b).all (fun p => 0 ≤ p.1 - p.2))
  else if a.length = 1 then
    .ok (b.all (fun x => 0 ≤ a.headD 0 - x))
  else if b.length = 1 then
    .ok (a.all (fun x => 0 ≤ x - b.headD 0))
  else .error .valueError

/-- The additions to slots: [tuple(c[1]) for c in complist if c[0] in eq_sites]. -/
def addedShapes (complist : List (ℕ × List ℤ × String)) (eq : List ℕ) :
    List (List ℤ) :=
  (complist.filter (fun c => c.1 ∈ eq)).map (fun c => c.2.1)

/-- complist = [(ai, self.shapes[ai], self.pointgroups[ai]) for ai in
self.fragments.keys()]. -/
def complistOf (shapes : List (ℕ × List ℤ)) (pointgroups : List (ℕ × String)) :
    List (ℕ × Fragment) → Except PyErr (List (ℕ × List ℤ × String))
  | [] => .ok []
  | (ai, _) :: rest =>
    match dictGet shapes ai with
    | .error e => .error e
    | .ok sh =>
      match dictGet pointgroups ai with
      | .error e => .error e
      | .ok pg =>
        match complistOf shapes pointgroups rest with
        | .error e => .error e
        | .ok r => .ok ((ai, sh, pg) :: r)

/-- An SBU signature: a shape vector and a point-group label. -/
structure SBU where
  shape : List ℤ
  pg : String
deriving Repr, DecidableEq

/-- The main loop of has_compatible_slots.  The Topology (self) is
threaded through every iteration; the source never assigns to any of
its attributes, so every step passes it on unchanged.  Gates in source
order: skip seen indices, find the first equivalence class of idx,
restrict it to equal trailing multiplicity, extend seen, then the
multiplicity gate, the point-group gate, the symmetry-order gate and
the coercion fallback. -/
def slotsLoop (sbu : SBU) (coercion : Bool)
    (complist : List (ℕ × List ℤ × String)) (t : Topology) :
    List (ℕ × List ℤ × String) → List ℕ → List (List ℤ) →
      Except PyErr (Topology × List (List ℤ))
  | [], _, slots => .ok (t, slots)
  | (idx, shape, pg) :: rest, seen, slots =>
    if idx ∈ seen then slotsLoop sbu coercion complist t rest seen slots
    else
      match firstClassContaining t.equivalent_sites idx with
      | .error e => .error e
      | .ok eq0 =>
        match restrictMult t.shapes shape eq0 with
        | .error e => .error e
        | .ok eq =>
          let seen2 := seen ++ eq
          match pyLast sbu.shape with
          | .error e => .error e
          | .ok sbuLast =>
            match pyLast shape with
            | .error e => .error e
            | .ok shLast =>
              if sbuLast ≠ shLast then
                slotsLoop sbu coercion complist t rest seen2 slots
              else if pg = sbu.pg then
                slotsLoop sbu coercion complist t rest seen2
                  (slots ++ addedShapes complist eq)
              else
                match npAllSubNonneg sbu.shape.dropLast shape.dropLast with
                | .error e => .error e
                | .ok symmOk =>
                  if symmOk then
                    slotsLoop sbu coercion complist t rest seen2
                      (slots ++ addedShapes complist eq)
                  else if coercion then
                    slotsLoop sbu coercion complist t rest seen2
                      (slots ++ addedShapes complist eq)
                  else
                    slotsLoop sbu coercion complist t rest seen2 slots

/-- Topology.has_compatible_slots, returning the (unchanged) object and
the slot list, or the raised exception. -/
def hasCompatibleSlots (t : Topology) (sbu : SBU) (coercion : Bool) :
    Except PyErr (Topology × List (List ℤ)) :=
  match complistOf t.shapes t.pointgroups t.fragments with
  | .error e => .error e
  | .ok cl => slotsLoop sbu coercion cl t cl [] []

/-- The slot list of has_compatible_slots, with the empty list standing
for a raised exception (used to compare the accepted slot sets). -/
def slotsOf (t : Topology) (sbu : SBU) (coercion : Bool) : List (List ℤ) :=
  match hasCompatibleSlots t sbu coercion with
  | .ok r => r.2
  | .error _ => []

/-- The identity cell used by the concrete test structures. -/
def cellId : Vec3 × Vec3 × Vec3 := ((1, 0, 0), (0, 1, 0), (0, 0, 1))

/-- Distances of a real atom to two connectors at the same distance 2. -/
def distsC1 : ℕ → List ℚ := fun _ => [2, 2]

/-- Distances of a real atom to a single connector at distance 2. -/
def distsC6 : ℕ → List ℚ := fun _ => [2]

/-- A one-connector fragment used by the concrete topologies. -/
def fragC7 : Fragment := { positions := [(0, 0, 0)], tags := [1] }

/-- A concrete analyzed-state Topology with one real atom, a nonempty
point-group map and a nonempty equivalence-class list. -/
def t7 : Topology :=
  { name := "t7"
    atoms := { numbers := [1, 0], positions := [(0, 0, 0), (1, 0, 0)]
               tags := [0, 1], cell := cellId }
    fragments := [(0, fragC7)]
    shapes := [(0, [1, 1])]
    pointgroups := [(0, "C2v")]
    equivalent_sites := [[0]] }

/-- A concrete Topology whose single fragment carries the connector tag 3. -/
def t8 : Topology :=
  { name := "t8"
    atoms := { numbers := [1, 0], positions := [(0, 0, 0), (1, 0, 0)]
               tags := [0, 1], cell := cellId }
    fragments := [(0, { positions := [(1, 0, 0)], tags := [3] })]
    shapes := [(0, [1, 1])]
    pointgroups := [(0, "C2v")]
    equivalent_sites := [[0]] }

/-- Input atoms whose tags are all 7, to observe the tag overwrite. -/
def atoms9 : AtomsData :=
  { numbers := [1, 0], positions := [(0, 0, 0), (mkRat 1 2, 0, 0)]
    tags := [7, 7], cell := cellId }

/-- Externals for atoms9: the one real atom has the one connector as
neighbor, and its space-group query yields a single site matching
nothing within tolerance. -/
def ext9 : Externals :=
  { dists := fun _ => [mkRat 1 2]
    nbrs := fun _ => [(1, (0, 0, 0))]
    shapeOf := fun _ n => [1, (n : ℤ)]
    pgOf := fun _ => "C1"
    siteNorms := fun _ => [[mkRat 1 2, mkRat 1 2]] }

/-- The Topology that analyzing atoms9 with ext9 produces. -/
def t9r : Topology :=
  { name := "x"
    atoms := { numbers := [1, 0], positions := [(0, 0, 0), (mkRat 1 2, 0, 0)]
               tags := [0, 2], cell := cellId }
    fragments := [(0, { positions := [(mkRat 1 2, 0, 0)], tags := [2] })]
    shapes := [(0, [1, 1])]
    pointgroups := [(0, "C1")]
    equivalent_sites := [[]] }

/-- Input atoms for the zero-connector-neighbors scenario. -/
def atoms3 : AtomsData :=
  { numbers := [1, 0], positions := [(0, 0, 0), (1, 0, 0)]
    tags := [0, 0], cell := cellId }

/-- Externals whose neighbor query returns no neighbors at all, so the
real atom has zero connector neighbors. -/
def ext3 : Externals :=
  { dists := fun _ => [1]
    nbrs := fun _ => []
    shapeOf := fun _ _ => []
    pgOf := fun _ => ""
    siteNorms := fun _ => [] }

/-- A Topology with one equivalence class of two real atoms carrying
the same multiplicity but different point-group labels. -/
def t5 : Topology :=
  { name := "t5"
    atoms := { numbers := [1, 1], positions := [(0, 0, 0), (1, 0, 0)]
               tags := [0, 0], cell := cellId }
    fragments := [(0, fragC7), (1, fragC7)]
    shapes := [(0, [5, 2]), (1, [9, 2])]
    pointgroups := [(0, "C1"), (1, "C2v")]
    equivalent_sites := [[0, 1]] }

/-- An SBU whose point group matches atom 1 of t5 but not atom 0, and
whose symmetry counts dominate neither atom. -/
def sbu5 : SBU := { shape := [0, 2], pg := "C2v" }

/-- A single-slot Topology whose only class is accepted by the
point-group gate for sbuC4w. -/
def tC4w : Topology :=
  { name := "c4"
    atoms := { numbers := [1, 0], positions := [(0, 0, 0), (1, 0, 0)]
               tags := [0, 1], cell := cellId }
    fragments := [(0, fragC7)]
    shapes := [(0, [1, 2])]
    pointgroups := [(0, "C2v")]
    equivalent_sites := [[0]] }

/-- An SBU matching the one slot of tC4w exactly. -/
def sbuC4w : SBU := { shape := [1, 2], pg := "C2v" }

/-- A single-slot Topology with point group D4h. -/
def tC5w : Topology :=
  { name := "c5"
    atoms := { numbers := [1, 0], positions := [(0, 0, 0), (1, 0, 0)]
               tags := [0, 1], cell := cellId }
    fragments := [(0, fragC7)]
    shapes := [(0, [7, 2])]
    pointgroups := [(0, "D4h")]
    equivalent_sites := [[0]] }

/-- An SBU matching tC5w by point group (its symmetry counts dominate
nothing, so only the point-group gate can accept). -/
def sbuC5w : SBU := { shape := [0, 2], pg := "D4h" }

/-- The complist of tC5w as has_compatible_slots builds it. -/
def complistC5w : List (ℕ × List ℤ × String) := [(0, [7, 2], "D4h")]

/-- Input atoms for the unmatched-query scenario: one real atom, one
connector. -/
def atomsC2 : AtomsData :=
  { numbers := [1, 0], positions := [(0, 0, 0), (mkRat 1 2, 0, 0)]
    tags := [0, 0], cell := cellId }

/-- Externals for atomsC2 whose space-group query produces one site
whose norms match no atom within the 1e-6 tolerance (directly or after
the pbc fold). -/
def extC2 : Externals :=
  { dists := fun _ => [mkRat 1 2]
    nbrs := fun _ => [(1, (0, 0, 0))]
    shapeOf := fun _ n => [1, (n : ℤ)]
    pgOf := fun _ => "C1"
    siteNorms := fun _ => [[mkRat 1 2, mkRat 1 2]] }

/-- A matched-index map that is a genuine equivalence: atoms 0 and 1
match each other, every other index only itself. -/
def MC2w : ℕ → List ℕ :=
  fun a => if a = 0 ∨ a = 1 then [0, 1] else [a]

end Autografs

namespace Autografs

theorem getD_set_eq (l : List ℚ) (i : ℕ) (v : ℚ) (h : i < l.length) :
    (l.set i v).getD i 0 = v := by
  rw [List.getD_eq_getElem?_getD, List.getElem?_set_eq_of_lt v h]
  rfl

theorem getD_set_ne (l : List ℚ) (i j : ℕ) (v : ℚ) (h : i ≠ j) :
    (l.set i v).getD j 0 = l.getD j 0 := by
  rw [List.getD_eq_getElem?_getD, List.getElem?_set_ne h,
    List.getD_eq_getElem?_getD]

theorem foldl_set_getD_not_mem (f : ℕ → ℚ) (As : List ℕ) (init : List ℚ)
    (i : ℕ) (h : i ∉ As) :
    (As.foldl (fun cs ai => cs.set ai (f ai)) init).getD i 0 = init.getD i 0 := by
  induction As generalizing init with
  | nil => rfl
  | cons a rest ih =>
    simp only [List.foldl_cons]
    rw [ih (init.set a (f a)) (fun hm => h (List.mem_cons_of_mem a hm)),
      getD_set_ne init a i (f a) (fun he => h (he ▸ List.mem_cons_self a rest))]

theorem foldl_set_getD_mem (f : ℕ → ℚ) (As : List ℕ) (init : List ℚ)
    (i : ℕ) (hmem : i ∈ As) (hnd : As.Nodup) (hlen : i < init.length) :
    (As.foldl (fun cs ai => cs.set ai (f ai)) init).getD i 0 = f i := by
  induction As generalizing init with
  | nil => cases hmem
  | cons a rest ih =>
    simp only [List.foldl_cons]
    rcases List.mem_cons.mp hmem with h | h
    · subst h
      have hni : i ∉ rest := (List.nodup_cons.mp hnd).1
      rw [foldl_set_getD_not_mem f rest (init.set i (f i)) i hni,
        getD_set_eq init i (f i) hlen]
    · exact ih (init.set a (f a)) h (List.nodup_cons.mp hnd).2
        (by rw [List.length_set]; exact hlen)

theorem getCutoffs_not_real (numbers : List ℕ) (dists : ℕ → List ℚ) (i : ℕ)
    (hi : i < numbers.length) (h0 : numbers.getD i 0 = 0) :
    (getCutoffs numbers dists (AisOf numbers)).getD i 0 = skin := by
  have hnot : i ∉ AisOf numbers := by
    intro hmem
    have h2 := (List.mem_filter.mp hmem).2
    simp only [decide_eq_true_eq] at h2
    omega
  unfold getCutoffs
  rw [foldl_set_getD_not_mem _ _ _ _ hnot, List.getD_eq_getElem?_getD,
    List.getElem?_replicate]
  simp [hi]

theorem getCutoffs_real (numbers : List ℕ) (dists : ℕ → List ℚ) (ai : ℕ)
    (hmem : ai ∈ AisOf numbers) :
    (getCutoffs numbers dists (AisOf numbers)).getD ai 0 =
      getCutoff (numbers.getD ai 0) (dists ai) := by
  have hnd : (AisOf numbers).Nodup := (List.nodup_range _).filter _
  have hlt : ai < numbers.length :=
    List.mem_range.mp (List.mem_filter.mp hmem).1
  unfold getCutoffs
  rw [foldl_set_getD_mem _ _ _ _ hmem hnd
    (by rw [List.length_replicate]; exact hlt)]

/-- C6, amended: each real atom's cutoff equals the computed
maximum-distance value with no skin added; each non-real atom's entry
stays at the skin value; the NeighborList is built with bothways=True,
self_interaction=False and zero additional skin. -/
theorem C6_theorem (numbers : List ℕ) (dists : ℕ → List ℚ) :
    (∀ i, i < numbers.length → numbers.getD i 0 = 0 →
      (getCutoffs numbers dists (AisOf numbers)).getD i 0 = skin) ∧
    (∀ ai, ai ∈ AisOf numbers →
      (getCutoffs numbers dists (AisOf numbers)).getD ai 0 =
        getCutoff (numbers.getD ai 0) (dists ai)) ∧
    (nlParamsOf numbers dists).nl_skin = 0 ∧
    (nlParamsOf numbers dists).bothways = true ∧
    (nlParamsOf numbers dists).self_interaction = false :=
  ⟨fun i hi h0 => getCutoffs_not_real numbers dists i hi h0,
   fun ai hmem => getCutoffs_real numbers dists ai hmem, rfl, rfl, rfl⟩

/-- C6, counterexample to the claim as stated: a real atom (index 0,
coordination 1) with one connector at distance 2 receives the cutoff 2
itself, not 2 + 0.005: no skin margin is added to a real atom's cutoff. -/
theorem C6_counterexample :
    getCutoffs [1, 0] distsC6 (AisOf [1, 0]) = [2, skin] ∧
    getCutoff 1 (distsC6 0) = 2 ∧ (2 : ℚ) ≠ 2 + skin := by
  with_unfolding_all decide

/-- C6 witness: the amended theorem applied to the concrete two-atom
structure. -/
theorem C6_witness :
    (getCutoffs [1, 0] distsC6 (AisOf [1, 0])).getD 1 0 = skin ∧
    (getCutoffs [1, 0] distsC6 (AisOf [1, 0])).getD 0 0 =
      getCutoff ([1, 0].getD 0 0) (distsC6 0) ∧
    (nlParamsOf [1, 0] distsC6).nl_skin = 0 :=
  ⟨(C6_theorem [1, 0] distsC6).1 1 (by decide) (by decide),
   (C6_theorem [1, 0] distsC6).2.1 0 (by decide),
   (C6_theorem [1, 0] distsC6).2.2.1⟩

/-- C7 (code bug): Topology.copy rebuilds the instance with
analyze=False and only restores fragments and shapes, so the copy's
point-group map and equivalence-class list are empty rather than
value-duplicates of the originals, contradicting the claim and the
method's own docstring (a deep copy of the current Topology). -/
theorem C7_theorem :
    (Topology.copyT t7).pointgroups = [] ∧ t7.pointgroups = [(0, "C2v")] ∧
    (Topology.copyT t7).equivalent_sites = [] ∧ t7.equivalent_sites = [[0]] ∧
    (Topology.copyT t7).fragments = t7.fragments ∧
    (Topology.copyT t7).shapes = t7.shapes ∧
    (Topology.copyT t7).atoms = t7.atoms := by
  decide

/-- C8, counterexample to the claim as stated: get_fragments calls
frag.set_tags on each stored fragment, so after the call the stored
fragment's tag 3 (copied from its source connector) has been replaced
by the owner index 0. -/
theorem C8_counterexample :
    ((Topology.getFragments t8).1.fragments.map fun p => p.2.tags) = [[0]] ∧
    (t8.fragments.map fun p => p.2.tags) = [[3]] ∧
    (Topology.getFragments t8).1.fragments ≠ t8.fragments := by
  decide

/-- C8, amended: get_fragments keeps every fragment's owner index and
connector positions unchanged, but overwrites each stored fragment's
tags with numpy.ones(len(frag)) * idx, and returns the concatenation of
the mutated fragments. -/
theorem C8_theorem (t : Topology) :
    ((Topology.getFragments t).1.fragments.map Prod.fst =
      t.fragments.map Prod.fst) ∧
    (((Topology.getFragments t).1.fragments.map fun p => p.2.positions) =
      t.fragments.map fun p => p.2.positions) ∧
    (((Topology.getFragments t).1.fragments.map fun p => p.2.tags) =
      t.fragments.map fun p => List.replicate p.2.positions.length (p.1 : ℚ)) ∧
    (Topology.getFragments t).2.positions =
      (t.fragments.map fun p => p.2.positions).flatten := by
  refine ⟨?_, ?_, ?_, ?_⟩ <;>
    simp [Topology.getFragments, List.map_map, Function.comp_def]

/-- C9, counterexample to the claim as stated: analyzing a structure
whose atoms carry tags [7, 7] leaves the stored atoms with tags [0, 2]
(0 for the real atom, index+1 for the connector): the input object's
per-atom tags are overwritten. -/
theorem C9_counterexample :
    (newTopology "x" atoms9 ext9).map (fun u => u.atoms.tags) = .ok [0, 2] ∧
    atoms9.tags = [7, 7] ∧ ([0, 2] : List ℚ) ≠ [7, 7] := by
  with_unfolding_all decide

/-- C9, amended: _analyze leaves the stored atoms' numbers, positions
and cell unchanged but overwrites the tags with the computed values
(0 on real atoms, index+1 on connectors). -/
theorem C9_theorem (t : Topology) (ext : Externals) (t2 : Topology)
    (h : analyze t ext = .ok t2) :
    t2.atoms.numbers = t.atoms.numbers ∧
    t2.atoms.positions = t.atoms.positions ∧
    t2.atoms.cell = t.atoms.cell ∧
    t2.atoms.tags = tagsOf t.atoms.numbers ∧
    t2.name = t.name := by
  unfold analyze at h
  split at h
  · exact absurd h (by simp)
  · rename_i fs shs pgs heq
    rw [Except.ok.injEq] at h
    subst h
    exact ⟨rfl, rfl, rfl, rfl, rfl⟩

/-- C9 witness: the amended theorem applied to the concrete structure
atoms9 with externals ext9. -/
theorem C9_witness :
    t9r.atoms.numbers = (initTopology "x" atoms9).atoms.numbers ∧
    t9r.atoms.positions = (initTopology "x" atoms9).atoms.positions ∧
    t9r.atoms.cell = (initTopology "x" atoms9).atoms.cell ∧
    t9r.atoms.tags = tagsOf (initTopology "x" atoms9).atoms.numbers ∧
    t9r.name = (initTopology "x" atoms9).name :=
  C9_theorem (initTopology "x" atoms9) ext9 t9r (by with_unfolding_all decide)

theorem extractLoop_error_of_empty (atoms : AtomsData) (tags : List ℚ)
    (Xis : List ℕ) (nbrs : ℕ → List (ℕ × (ℤ × ℤ × ℤ)))
    (shapeOf : Fragment → ℕ → List ℤ) (pgOf : Fragment → String)
    (l : List ℕ) (ai : ℕ) (hmem : ai ∈ l)
    (hempty : extractPairs Xis (nbrs ai) = []) :
    extractLoop atoms tags Xis nbrs shapeOf pgOf l = .error .valueError := by
  induction l with
  | nil => cases hmem
  | cons b rest ih =>
    by_cases hb : (extractPairs Xis (nbrs b)).isEmpty
    · unfold extractLoop
      simp only [hb, if_true]
    · have hbr : ai ∈ rest := by
        rcases List.mem_cons.mp hmem with h | h
        · exact absurd (by rw [← h, hempty]; rfl) hb
        · exact h
      unfold extractLoop
      simp only [hb, if_false, Bool.false_eq_true]
      rw [ih hbr]

/-- C3, amended: if some real atom's neighbor query yields zero
connector neighbors, _analyze raises a ValueError (the tuple unpacking
of the empty filtered zip), so construction fails and no Topology
reaches the caller; the source defines no MalformedTopologyError. -/
theorem C3_theorem (t : Topology) (ext : Externals) (ai : ℕ)
    (hmem : ai ∈ AisOf t.atoms.numbers)
    (hempty : extractPairs (XisOf t.atoms.numbers) (ext.nbrs ai) = []) :
    analyze t ext = .error .valueError := by
  unfold analyze
  rw [extractLoop_error_of_empty _ _ _ _ _ _ _ ai hmem hempty]

/-- C3, counterexample to the claim as stated: on a structure whose
real atom has zero connector neighbors, construction fails with a
ValueError, which is not a MalformedTopologyError. -/
theorem C3_counterexample :
    newTopology "x" atoms3 ext3 = .error .valueError ∧
    PyErr.valueError ≠ PyErr.malformedTopologyError := by
  with_unfolding_all decide

/-- C3 witness: the amended theorem applied to the concrete structure
atoms3 with the empty neighbor query ext3. -/
theorem C3_witness :
    analyze (initTopology "y" atoms3) ext3 = .error .valueError :=
  C3_theorem (initTopology "y" atoms3) ext3 0 (by decide) (by decide)

theorem foldl_max_swap (t : List ℚ) :
    ∀ x a : ℚ, t.foldl max (max x a) = max x (t.foldl max a) := by
  induction t with
  | nil => intro x a; rfl
  | cons b tb ih =>
    intro x a
    simp only [List.foldl_cons]
    rw [max_assoc]
    exact ih x (max a b)

theorem listMax_cons (x : ℚ) (l : List ℚ) (h : l ≠ []) :
    listMax (x :: l) = max x (listMax l) := by
  obtain ⟨a, t, rfl⟩ := List.exists_cons_of_ne_nil h
  simp only [listMax, List.foldl_cons]
  exact foldl_max_swap t x a

theorem le_listMax (l : List ℚ) (x : ℚ) (h : x ∈ l) : x ≤ listMax l := by
  induction l with
  | nil => cases h
  | cons a t ih =>
    rcases List.mem_cons.mp h with rfl | hm
    · cases t with
      | nil => exact le_of_eq rfl
      | cons b tb =>
        rw [listMax_cons _ _ (by simp)]
        exact le_max_left _ _
    · have ht : t ≠ [] := List.ne_nil_of_mem hm
      rw [listMax_cons _ _ ht]
      exact le_trans (ih hm) (le_max_right _ _)

theorem getD_mem_of_lt (l : List ℚ) (n : ℕ) (h : n < l.length) :
    l.getD n 0 ∈ l := by
  rw [List.getD_eq_getElem?_getD, List.getElem?_eq_getElem h, Option.getD_some]
  exact List.getElem_mem h

theorem listMax_take_sorted (l : List ℚ) (hs : l.Sorted (fun a b => a ≤ b)) :
    ∀ k, 0 < k → k ≤ l.length → listMax (l.take k) = l.getD (k - 1) 0 := by
  induction l with
  | nil =>
    intro k hk hlen
    simp only [List.length_nil] at hlen
    omega
  | cons x xs ih =>
    intro k hk hlen
    rcases k with _ | k
    · omega
    rcases k with _ | j
    · simp [listMax]
    · have hxs : j + 1 ≤ xs.length := by
        simp only [List.length_cons] at hlen
        omega
      have hxne : xs ≠ [] := by
        intro hx
        rw [hx] at hxs
        simp at hxs
      have hne : xs.take (j + 1) ≠ [] := by
        obtain ⟨y, ys, rfl⟩ := List.exists_cons_of_ne_nil hxne
        simp [List.take_succ_cons]
      rw [List.take_succ_cons, listMax_cons _ _ hne,
        ih hs.of_cons (j + 1) (by omega) hxs]
      have hjlt : j < xs.length := by omega
      have hle : x ≤ xs.getD j 0 :=
        List.rel_of_sorted_cons hs _ (getD_mem_of_lt xs j hjlt)
      simp only [Nat.add_sub_cancel, List.getD_cons_succ]
      exact max_eq_right hle

theorem sorted_filter_le_length (l : List ℚ)
    (hs : l.Sorted (fun a b => a ≤ b)) :
    ∀ k, 0 < k → k < l.length → l.getD (k - 1) 0 < l.getD k 0 →
      (l.filter (fun x => x ≤ l.getD (k - 1) 0)).length = k := by
  induction l with
  | nil =>
    intro k hk hlen
    simp only [List.length_nil] at hlen
    omega
  | cons x xs ih =>
    intro k hk hlen hgap
    rcases k with _ | k
    · omega
    rcases k with _ | j
    · -- k = 1: the cutoff is the head and everything in the tail is above it
      have hxne : xs ≠ [] := by
        intro hx
        rw [hx] at hlen
        simp at hlen
      obtain ⟨y, ys, rfl⟩ := List.exists_cons_of_ne_nil hxne
      simp only [Nat.add_sub_cancel, List.getD_cons_zero,
        List.getD_cons_succ] at hgap ⊢
      rw [List.filter_cons, if_pos (by simp)]
      have hnil : (y :: ys).filter (fun a => a ≤ x) = [] := by
        rw [List.filter_eq_nil_iff]
        intro a ha
        have hya : y ≤ a := by
          rcases List.mem_cons.mp ha with rfl | hm
          · exact le_refl a
          · exact List.rel_of_sorted_cons hs.of_cons a hm
        simp only [decide_eq_true_eq, not_le]
        exact lt_of_lt_of_le hgap hya
      rw [hnil]
      rfl
    · -- k = j + 2: the head passes the filter and the tail contributes j+1
      simp only [Nat.add_sub_cancel, List.getD_cons_succ] at hgap ⊢
      have hjlt : j < xs.length := by
        simp only [List.length_cons] at hlen
        omega
      have hxle : x ≤ xs.getD j 0 :=
        List.rel_of_sorted_cons hs _ (getD_mem_of_lt xs j hjlt)
      have htail := ih hs.of_cons (j + 1) (by omega)
        (by simp only [List.length_cons] at hlen; omega) hgap
      simp only [Nat.add_sub_cancel] at htail
      rw [List.filter_cons, if_pos (by simpa using hxle),
        List.length_cons, htail]

/-- C1, amended: when coord < len(dists), the computed cutoff equals
the coord-th smallest minimum-image distance (the maximum over the
coord closest connectors), and exactly coord connectors lie within it
provided the coord-th and (coord+1)-th smallest distances differ (with
a tie at the boundary more than coord connectors lie within the
cutoff, refuting the unconditional count of the original claim); when
at most coord connectors exist, the cutoff is the maximum of all
connector distances and every available connector lies within it. -/
theorem C1_theorem (coord : ℕ) (dists : List ℚ) (hc : 0 < coord) :
    (coord < dists.length →
      getCutoff coord dists =
        (dists.insertionSort (· ≤ ·)).getD (coord - 1) 0 ∧
      ((dists.insertionSort (· ≤ ·)).getD (coord - 1) 0 <
          (dists.insertionSort (· ≤ ·)).getD coord 0 →
        (dists.filter (fun x => x ≤ getCutoff coord dists)).length = coord)) ∧
    (dists.length ≤ coord → dists ≠ [] →
      getCutoff coord dists = listMax dists ∧
      (dists.filter (fun x => x ≤ getCutoff coord dists)).length =
        dists.length) := by
  constructor
  · intro hlt
    have hperm : List.Perm (dists.insertionSort (· ≤ ·)) dists :=
      List.perm_insertionSort _ dists
    have hlens : (dists.insertionSort (· ≤ ·)).length = dists.length :=
      hperm.length_eq
    have hsort : (dists.insertionSort (· ≤ ·)).Sorted (fun a b => a ≤ b) :=
      List.sorted_insertionSort _ dists
    have hcut : getCutoff coord dists =
        (dists.insertionSort (· ≤ ·)).getD (coord - 1) 0 := by
      unfold getCutoff
      rw [if_pos hlt]
      exact listMax_take_sorted _ hsort coord hc (by omega)
    refine ⟨hcut, fun hgap => ?_⟩
    have hcount := sorted_filter_le_length _ hsort coord hc (by omega) hgap
    rw [hcut, ← (hperm.filter
      (fun x => decide (x ≤ (dists.insertionSort (· ≤ ·)).getD (coord - 1) 0))).length_eq]
    exact hcount
  · intro hge hne
    have hcut : getCutoff coord dists = listMax dists := by
      unfold getCutoff
      rw [if_neg (by omega)]
    refine ⟨hcut, ?_⟩
    rw [hcut]
    have hfe : dists.filter (fun x => x ≤ listMax dists) = dists :=
      List.filter_eq_self.mpr (fun a ha => by
        simpa using le_listMax dists a ha)
    rw [hfe]

/-- C1, counterexample to the claim as stated: a real atom with
coordination 1 and two connectors both at distance 2 receives cutoff 2
(the maximum over its 1 closest connector), but both connectors lie
within that cutoff, so the number of connectors within the cutoff is 2,
not the declared coordination 1. -/
theorem C1_counterexample :
    getCutoffs [1, 0, 0] distsC1 (AisOf [1, 0, 0]) = [2, skin, skin] ∧
    getCutoff 1 (distsC1 0) = 2 ∧
    ((distsC1 0).filter (fun x => x ≤ getCutoff 1 (distsC1 0))).length = 2 ∧
    (2 : ℕ) ≠ 1 := by
  with_unfolding_all decide

/-- C1 witness: the amended theorem applied to distances [1, 2] with
coordination 1 (strictly separated order statistics) and to a single
connector with declared coordination 4 (the fewer-connectors branch of
the specification scenario). -/
theorem C1_witness :
    getCutoff 1 [1, 2] = (([1, 2] : List ℚ).insertionSort (· ≤ ·)).getD 0 0 ∧
    (([1, 2] : List ℚ).filter (fun x => x ≤ getCutoff 1 [1, 2])).length = 1 ∧
    getCutoff 4 [1] = listMax [1] ∧
    (([1] : List ℚ).filter (fun x => x ≤ getCutoff 4 [1])).length =
      ([1] : List ℚ).length :=
  ⟨((C1_theorem 1 [1, 2] (by decide)).1 (by decide)).1,
   ((C1_theorem 1 [1, 2] (by decide)).1 (by decide)).2 (by decide),
   ((C1_theorem 4 [1] (by decide)).2 (by decide) (by decide)).1,
   ((C1_theorem 4 [1] (by decide)).2 (by decide) (by decide)).2⟩

theorem slotsLoop_ok_facts (sbu : SBU) (c : Bool)
    (complist : List (ℕ × List ℤ × String)) (t : Topology) :
    ∀ (rest : List (ℕ × List ℤ × String)) (seen : List ℕ)
      (slots : List (List ℤ)) (t2 : Topology) (r : List (List ℤ)),
      slotsLoop sbu c complist t rest seen slots = .ok (t2, r) →
      t2 = t ∧ ∀ x ∈ slots, x ∈ r := by
  intro rest
  induction rest with
  | nil =>
    intro seen slots t2 r h
    unfold slotsLoop at h
    rw [Except.ok.injEq, Prod.mk.injEq] at h
    exact ⟨h.1.symm, fun x hx => h.2 ▸ hx⟩
  | cons hd rest ih =>
    obtain ⟨idx, shape, pg⟩ := hd
    intro seen slots t2 r h
    unfold slotsLoop at h
    by_cases hseen : idx ∈ seen
    · rw [if_pos hseen] at h
      exact ih seen slots t2 r h
    · rw [if_neg hseen] at h
      cases hfc : firstClassContaining t.equivalent_sites idx with
      | error e =>
        simp only [hfc] at h
        exact absurd h (by simp)
      | ok eq0 =>
        simp only [hfc] at h
        cases hrm : restrictMult t.shapes shape eq0 with
        | error e =>
          simp only [hrm] at h
          exact absurd h (by simp)
        | ok eq =>
          simp only [hrm] at h
          cases hsl : pyLast sbu.shape with
          | error e =>
            simp only [hsl] at h
            exact absurd h (by simp)
          | ok sbuLast =>
            simp only [hsl] at h
            cases hsh : pyLast shape with
            | error e =>
              simp only [hsh] at h
              exact absurd h (by simp)
            | ok shLast =>
              simp only [hsh] at h
              by_cases hne : sbuLast ≠ shLast
              · rw [if_pos hne] at h
                exact ih _ _ _ _ h
              · rw [if_neg hne] at h
                by_cases hpg : pg = sbu.pg
                · rw [if_pos hpg] at h
                  obtain ⟨h1, h2⟩ := ih _ _ _ _ h
                  exact ⟨h1, fun x hx => h2 x (List.mem_append.mpr (Or.inl hx))⟩
                · rw [if_neg hpg] at h
                  cases hnp : npAllSubNonneg sbu.shape.dropLast shape.dropLast with
                  | error e =>
                    simp only [hnp] at h
                    exact absurd h (by simp)
                  | ok b =>
                    simp only [hnp] at h
                    cases b with
                    | true =>
                      rw [if_pos (by trivial)] at h
                      obtain ⟨h1, h2⟩ := ih _ _ _ _ h
                      exact ⟨h1, fun x hx => h2 x (List.mem_append.mpr (Or.inl hx))⟩
                    | false =>
                      rw [if_neg (by simp)] at h
                      cases c with
                      | true =>
                        rw [if_pos (by trivial)] at h
                        obtain ⟨h1, h2⟩ := ih _ _ _ _ h
                        exact ⟨h1, fun x hx => h2 x (List.mem_append.mpr (Or.inl hx))⟩
                      | false =>
                        rw [if_neg (by simp)] at h
                        exact ih _ _ _ _ h

theorem slotsLoop_coercion_superset (sbu : SBU)
    (complist : List (ℕ × List ℤ × String)) (t : Topology) :
    ∀ (rest : List (ℕ × List ℤ × String)) (seen : List ℕ)
      (s1 s2 : List (List ℤ)), (∀ x ∈ s1, x ∈ s2) →
      ∀ (t2 : Topology) (r1 : List (List ℤ)),
        slotsLoop sbu false complist t rest seen s1 = .ok (t2, r1) →
        ∃ (t3 : Topology) (r2 : List (List ℤ)),
          slotsLoop sbu true complist t rest seen s2 = .ok (t3, r2) ∧
          ∀ x ∈ r1, x ∈ r2 := by
  intro rest
  induction rest with
  | nil =>
    intro seen s1 s2 hsub t2 r1 h
    unfold slotsLoop at h
    rw [Except.ok.injEq, Prod.mk.injEq] at h
    exact ⟨t, s2, rfl, fun x hx => hsub x (h.2 ▸ hx)⟩
  | cons hd rest ih =>
    obtain ⟨idx, shape, pg⟩ := hd
    intro seen s1 s2 hsub t2 r1 h
    unfold slotsLoop at h ⊢
    by_cases hseen : idx ∈ seen
    · rw [if_pos hseen] at h ⊢
      exact ih seen s1 s2 hsub t2 r1 h
    · rw [if_neg hseen] at h ⊢
      cases hfc : firstClassContaining t.equivalent_sites idx with
      | error e =>
        simp only [hfc] at h
        exact absurd h (by simp)
      | ok eq0 =>
        simp only [hfc] at h ⊢
        cases hrm : restrictMult t.shapes shape eq0 with
        | error e =>
          simp only [hrm] at h
          exact absurd h (by simp)
        | ok eq =>
          simp only [hrm] at h ⊢
          cases hsl : pyLast sbu.shape with
          | error e =>
            simp only [hsl] at h
            exact absurd h (by simp)
          | ok sbuLast =>
            simp only [hsl] at h ⊢
            cases hsh : pyLast shape with
            | error e =>
              simp only [hsh] at h
              exact absurd h (by simp)
            | ok shLast =>
              simp only [hsh] at h ⊢
              by_cases hne : sbuLast ≠ shLast
              · rw [if_pos hne] at h ⊢
                exact ih _ _ _ hsub _ _ h
              · rw [if_neg hne] at h ⊢
                by_cases hpg : pg = sbu.pg
                · rw [if_pos hpg] at h ⊢
                  refine ih _ _ _ ?_ _ _ h
                  intro x hx
                  rcases List.mem_append.mp hx with hx1 | hx2
                  · exact List.mem_append.mpr (Or.inl (hsub x hx1))
                  · exact List.mem_append.mpr (Or.inr hx2)
                · rw [if_neg hpg] at h ⊢
                  cases hnp : npAllSubNonneg sbu.shape.dropLast shape.dropLast with
                  | error e =>
                    simp only [hnp] at h
                    exact absurd h (by simp)
                  | ok b =>
                    simp only [hnp] at h ⊢
                    cases b with
                    | true =>
                      rw [if_pos (by trivial)] at h ⊢
                      refine ih _ _ _ ?_ _ _ h
                      intro x hx
                      rcases List.mem_append.mp hx with hx1 | hx2
                      · exact List.mem_append.mpr (Or.inl (hsub x hx1))
                      · exact List.mem_append.mpr (Or.inr hx2)
                    | false =>
                      rw [if_neg (by simp)] at h ⊢
                      rw [if_neg (by simp)] at h
                      rw [if_pos (by trivial)]
                      refine ih _ _ _ ?_ _ _ h
                      intro x hx
                      exact List.mem_append.mpr (Or.inl (hsub x hx))

/-- C4: for every Topology state and SBU signature, every slot
shape-tuple returned by has_compatible_slots with coercion disabled is
also returned with coercion enabled (the coercion slot set is a
superset). -/
theorem C4_theorem (t : Topology) (sbu : SBU) (x : List ℤ)
    (h : x ∈ slotsOf t sbu false) : x ∈ slotsOf t sbu true := by
  unfold slotsOf hasCompatibleSlots at h ⊢
  cases hcl : complistOf t.shapes t.pointgroups t.fragments with
  | error e =>
    simp only [hcl] at h
    exact absurd h (List.not_mem_nil x)
  | ok cl =>
    simp only [hcl] at h ⊢
    cases hsl : slotsLoop sbu false cl t cl [] [] with
    | error e =>
      simp only [hsl] at h
      exact absurd h (List.not_mem_nil x)
    | ok p =>
      obtain ⟨t2, r1⟩ := p
      simp only [hsl] at h
      obtain ⟨t3, r2, heq, hsup⟩ :=
        slotsLoop_coercion_superset sbu cl t cl [] [] []
          (fun y hy => hy) t2 r1 hsl
      simp only [heq]
      exact hsup x h

/-- C4 witness: the exactly-matching slot of tC4w is accepted both
without and with coercion. -/
theorem C4_witness :
    ([1, 2] : List ℤ) ∈ slotsOf tC4w sbuC4w false ∧
    ([1, 2] : List ℤ) ∈ slotsOf tC4w sbuC4w true :=
  ⟨by decide, C4_theorem tC4w sbuC4w [1, 2] (by decide)⟩

/-- C10: has_compatible_slots is read-only and deterministic: a
successful call returns the Topology state unchanged, and calling it
again on the returned state with the same arguments returns the same
result. -/
theorem C10_theorem (t : Topology) (sbu : SBU) (c : Bool) (t2 : Topology)
    (r : List (List ℤ)) (h : hasCompatibleSlots t sbu c = .ok (t2, r)) :
    t2 = t ∧ hasCompatibleSlots t2 sbu c = .ok (t2, r) := by
  have hstate : t2 = t := by
    unfold hasCompatibleSlots at h
    cases hcl : complistOf t.shapes t.pointgroups t.fragments with
    | error e =>
      simp only [hcl] at h
      exact absurd h (by simp)
    | ok cl =>
      simp only [hcl] at h
      exact (slotsLoop_ok_facts sbu c cl t cl [] [] t2 r h).1
  subst hstate
  exact ⟨rfl, h⟩

/-- C10 witness: the slot query on the concrete topology tC4w returns
the state unchanged and is repeatable. -/
theorem C10_witness :
    tC4w = tC4w ∧
    hasCompatibleSlots tC4w sbuC4w false = .ok (tC4w, [[1, 2]]) :=
  C10_theorem tC4w sbuC4w false tC4w [[1, 2]] (by decide)

/-- C5, amended: the point-group gate is evaluated on the atom the
loop examines, i.e. the first not-yet-visited member of each
multiplicity-restricted sub-group: whenever such an examined atom
passes the multiplicity gate and its point-group label equals the
SBU's, the shape vector of every member of its restricted sub-group is
added to the returned slots, regardless of the other shape-vector
entries; for a later member of an already-visited sub-group the gate
is never evaluated on that member's own label. -/
theorem C5_theorem (sbu : SBU) (c : Bool)
    (complist : List (ℕ × List ℤ × String)) (t : Topology) (idx : ℕ)
    (shape : List ℤ) (pg : String) (rest : List (ℕ × List ℤ × String))
    (seen : List ℕ) (slots : List (List ℤ)) (t2 : Topology)
    (r : List (List ℤ))
    (hrun : slotsLoop sbu c complist t ((idx, shape, pg) :: rest) seen slots =
      .ok (t2, r))
    (hunseen : idx ∉ seen) (eq0 : List ℕ)
    (hfc : firstClassContaining t.equivalent_sites idx = .ok eq0)
    (eq : List ℕ) (hrm : restrictMult t.shapes shape eq0 = .ok eq)
    (m : ℤ) (hsbu : pyLast sbu.shape = .ok m) (hsh : pyLast shape = .ok m)
    (hpg : pg = sbu.pg) :
    ∀ y ∈ addedShapes complist eq, y ∈ r := by
  unfold slotsLoop at hrun
  rw [if_neg hunseen] at hrun
  simp only [hfc, hrm, hsbu, hsh] at hrun
  rw [if_neg (show ¬ m ≠ m from fun hx => hx rfl), if_pos hpg] at hrun
  intro y hy
  exact (slotsLoop_ok_facts sbu c complist t rest _ _ t2 r hrun).2 y
    (List.mem_append.mpr (Or.inr hy))

/-- C5, counterexample to the claim as stated: in t5 both real atoms
share one equivalence class and the multiplicity 2 of sbu5; atom 1's
point-group label equals sbu5's, yet the returned slot list is empty,
because the gate was evaluated on atom 0 (the first member), whose
label differs and whose symmetry counts are not dominated. -/
theorem C5_counterexample :
    hasCompatibleSlots t5 sbu5 false = .ok (t5, []) ∧
    dictGet t5.pointgroups 1 = .ok "C2v" ∧ sbu5.pg = "C2v" ∧
    dictGet t5.shapes 1 = .ok [9, 2] ∧ pyLast [(9 : ℤ), 2] = .ok 2 ∧
    pyLast sbu5.shape = .ok 2 ∧
    ([9, 2] : List ℤ) ∉ ([] : List (List ℤ)) := by
  decide

/-- C5 witness: the amended theorem applied to the single-slot
topology tC5w, whose examined atom passes both gates. -/
theorem C5_witness :
    addedShapes complistC5w [0] = [[7, 2]] ∧
    ([7, 2] : List ℤ) ∈ ([[7, 2]] : List (List ℤ)) :=
  ⟨by decide,
   C5_theorem sbuC5w false complistC5w tC5w 0 [7, 2] "D4h" [] [] [] tC5w
     [[7, 2]] (by decide) (by decide) [0] (by decide) [0] (by decide) 2
     (by decide) (by decide) rfl [7, 2] (by decide)⟩

theorem buildClassesAux_append (M : ℕ → List ℕ) :
    ∀ (rest seen : List ℕ) (acc : List (List ℕ)),
      ∃ ext, buildClassesAux M rest seen acc = acc ++ ext := by
  intro rest
  induction rest with
  | nil =>
    intro seen acc
    exact ⟨[], by simp [buildClassesAux]⟩
  | cons ai rest ih =>
    intro seen acc
    unfold buildClassesAux
    by_cases h : ai ∈ seen
    · rw [if_pos h]
      exact ih seen acc
    · rw [if_neg h]
      obtain ⟨ext, hext⟩ := ih (seen ++ M ai) (acc ++ [M ai])
      exact ⟨[M ai] ++ ext, by rw [hext, List.append_assoc]⟩

theorem buildClassesAux_facts (M : ℕ → List ℕ) (Ais : List ℕ)
    (hself : ∀ a ∈ Ais, a ∈ M a)
    (hsub : ∀ a ∈ Ais, ∀ x ∈ M a, x ∈ Ais)
    (heq : ∀ a ∈ Ais, ∀ b ∈ Ais, (∃ x ∈ M a, x ∈ M b) → M a = M b) :
    ∀ (rest seen : List ℕ) (acc : List (List ℕ)),
      (∀ a ∈ rest, a ∈ Ais) →
      (∀ x, x ∈ seen ↔ x ∈ acc.flatten) →
      (∀ cl ∈ acc, ∃ b, b ∈ Ais ∧ cl = M b) →
      List.Pairwise (fun cl dl => ∀ x, x ∈ cl → x ∉ dl) acc →
      (∀ b ∈ rest, ∀ x ∈ M b, x ∈ (buildClassesAux M rest seen acc).flatten) ∧
      (∀ x ∈ (buildClassesAux M rest seen acc).flatten,
        x ∈ acc.flatten ∨ x ∈ Ais) ∧
      (∀ cl ∈ buildClassesAux M rest seen acc,
        cl ∈ acc ∨ ∃ b, b ∈ Ais ∧ cl = M b) ∧
      List.Pairwise (fun cl dl => ∀ x, x ∈ cl → x ∉ dl)
        (buildClassesAux M rest seen acc) := by
  intro rest
  induction rest with
  | nil =>
    intro seen acc hrest hseen hprov hdisj
    exact ⟨fun b hb => absurd hb (List.not_mem_nil b),
      fun x hx => Or.inl hx, fun cl hcl => Or.inl hcl, hdisj⟩
  | cons ai rest ih =>
    intro seen acc hrest hseen hprov hdisj
    have hai : ai ∈ Ais := hrest ai (List.mem_cons_self ai rest)
    have hrest2 : ∀ a ∈ rest, a ∈ Ais :=
      fun a haa => hrest a (List.mem_cons_of_mem ai haa)
    unfold buildClassesAux
    by_cases hmem : ai ∈ seen
    · rw [if_pos hmem]
      obtain ⟨ha, hb, hc, hd⟩ := ih seen acc hrest2 hseen hprov hdisj
      refine ⟨?_, hb, hc, hd⟩
      intro b hbmem x hx
      rcases List.mem_cons.mp hbmem with rfl | hbr
      · have hacc : b ∈ acc.flatten := (hseen b).mp hmem
        obtain ⟨cl, hclmem, hbcl⟩ := List.mem_flatten.mp hacc
        obtain ⟨b0, hb0, rfl⟩ := hprov cl hclmem
        have hMeq : M b = M b0 := heq b hai b0 hb0 ⟨b, hself b hai, hbcl⟩
        have hxacc : x ∈ acc.flatten :=
          List.mem_flatten.mpr ⟨M b0, hclmem, hMeq ▸ hx⟩
        obtain ⟨ext, hext⟩ := buildClassesAux_append M rest seen acc
        rw [hext, List.flatten_append]
        exact List.mem_append.mpr (Or.inl hxacc)
      · exact ha b hbr x hx
    · rw [if_neg hmem]
      have hseen2 : ∀ x, x ∈ seen ++ M ai ↔ x ∈ (acc ++ [M ai]).flatten := by
        intro x
        simp only [List.mem_append, List.flatten_append, List.flatten_cons,
          List.flatten_nil, List.append_nil]
        rw [hseen x]
      have hprov2 : ∀ cl ∈ acc ++ [M ai], ∃ b, b ∈ Ais ∧ cl = M b := by
        intro cl hcl
        rcases List.mem_append.mp hcl with h1 | h2
        · exact hprov cl h1
        · exact ⟨ai, hai, List.mem_singleton.mp h2⟩
      have hdisjnew : ∀ cl ∈ acc, ∀ x, x ∈ cl → x ∉ M ai := by
        intro cl hcl x hxcl hxM
        obtain ⟨b0, hb0, rfl⟩ := hprov cl hcl
        have hMeq : M ai = M b0 := heq ai hai b0 hb0 ⟨x, hxM, hxcl⟩
        have haicl : ai ∈ M b0 := hMeq ▸ hself ai hai
        have haiacc : ai ∈ acc.flatten := List.mem_flatten.mpr ⟨M b0, hcl, haicl⟩
        exact hmem ((hseen ai).mpr haiacc)
      have hdisj2 : List.Pairwise (fun cl dl => ∀ x, x ∈ cl → x ∉ dl)
          (acc ++ [M ai]) := by
        rw [List.pairwise_append]
        refine ⟨hdisj, List.pairwise_singleton _ _, ?_⟩
        intro cl hcl dl hdl x hxcl
        rw [List.mem_singleton.mp hdl]
        exact hdisjnew cl hcl x hxcl
      obtain ⟨ha, hb, hc, hd⟩ :=
        ih (seen ++ M ai) (acc ++ [M ai]) hrest2 hseen2 hprov2 hdisj2
      refine ⟨?_, ?_, ?_, hd⟩
      · intro b hbmem x hx
        rcases List.mem_cons.mp hbmem with rfl | hbr
        · obtain ⟨ext, hext⟩ :=
            buildClassesAux_append M rest (seen ++ M b) (acc ++ [M b])
          rw [hext, List.flatten_append]
          refine List.mem_append.mpr (Or.inl ?_)
          exact List.mem_flatten.mpr
            ⟨M b, List.mem_append.mpr (Or.inr (List.mem_singleton_self _)), hx⟩
        · exact ha b hbr x hx
      · intro x hx
        rcases hb x hx with h1 | h2
        · rw [List.flatten_append] at h1
          rcases List.mem_append.mp h1 with h3 | h4
          · exact Or.inl h3
          · have hxM : x ∈ M ai := by
              simpa using h4
            exact Or.inr (hsub ai hai x hxM)
        · exact Or.inr h2
      · intro cl hcl
        rcases hc cl hcl with h1 | h2
        · rcases List.mem_append.mp h1 with h3 | h4
          · exact Or.inl h3
          · exact Or.inr ⟨ai, hai, List.mem_singleton.mp h4⟩
        · exact Or.inr h2

/-- C2, amended: when the tolerance-matched index map M computed from
the space-group query behaves as a genuine equivalence on the real-atom
indices (every real atom matches itself, matches stay inside the
real-atom set without duplicates, and overlapping match sets coincide),
the classes built by the seen-indices loop partition the real-atom
index set: their union is exactly the real-atom set, they are pairwise
disjoint and duplicate-free, and every real atom lies in exactly one
class.  Without those hypotheses the loop can emit an empty class and
omit the atom entirely (see the counterexample). -/
theorem C2_theorem (Ais : List ℕ) (M : ℕ → List ℕ)
    (hself : ∀ a ∈ Ais, a ∈ M a)
    (hsub : ∀ a ∈ Ais, ∀ x ∈ M a, x ∈ Ais)
    (hnd : ∀ a ∈ Ais, (M a).Nodup)
    (heq : ∀ a ∈ Ais, ∀ b ∈ Ais, (∃ x ∈ M a, x ∈ M b) → M a = M b) :
    (∀ x, x ∈ (buildClasses Ais M).flatten ↔ x ∈ Ais) ∧
    List.Pairwise (fun cl dl => ∀ x, x ∈ cl → x ∉ dl) (buildClasses Ais M) ∧
    (∀ cl ∈ buildClasses Ais M, cl.Nodup) ∧
    (∀ a ∈ Ais, ∃ cl, cl ∈ buildClasses Ais M ∧ a ∈ cl ∧
      ∀ dl ∈ buildClasses Ais M, a ∈ dl → dl = cl) := by
  obtain ⟨ha, hb, hc, hd⟩ := buildClassesAux_facts M Ais hself hsub heq Ais [] []
    (fun a h => h) (by simp) (by simp) List.Pairwise.nil
  unfold buildClasses
  have hsymm : Symmetric (fun cl dl : List ℕ => ∀ x, x ∈ cl → x ∉ dl) := by
    intro u v huv x hxv hxu
    exact huv x hxu hxv
  refine ⟨?_, hd, ?_, ?_⟩
  · intro x
    constructor
    · intro hx
      rcases hb x hx with h | h
      · simp at h
      · exact h
    · intro hx
      exact ha x hx x (hself x hx)
  · intro cl hcl
    rcases hc cl hcl with h | ⟨b, hbA, rfl⟩
    · simp at h
    · exact hnd b hbA
  · intro a haA
    obtain ⟨cl, hclmem, hacl⟩ :=
      List.mem_flatten.mp (ha a haA a (hself a haA))
    refine ⟨cl, hclmem, hacl, ?_⟩
    intro dl hdl hadl
    by_contra hne
    exact hd.forall hsymm hdl hclmem hne a hadl hacl

/-- C2, counterexample to the claim as stated: a structure with a
single real atom whose space-group query yields one site matching
nothing within the 1e-6 tolerance produces the class list [[]] -- an
empty class, not a singleton containing the atom -- so the real atom 0
belongs to no equivalence class and the classes do not partition the
real-atom index set. -/
theorem C2_counterexample :
    (newTopology "x" atomsC2 extC2).map (fun u => u.equivalent_sites) =
      .ok [[]] ∧
    AisOf atomsC2.numbers = [0] ∧
    (0 : ℕ) ∉ ([[]] : List (List ℕ)).flatten := by
  with_unfolding_all decide

/-- C2 witness: the amended theorem applied to the two-atom equivalence
map MC2w. -/
theorem C2_witness :
    ((0 : ℕ) ∈ (buildClasses [0, 1] MC2w).flatten ↔ (0 : ℕ) ∈ ([0, 1] : List ℕ)) ∧
    List.Pairwise (fun cl dl => ∀ x, x ∈ cl → x ∉ dl) (buildClasses [0, 1] MC2w) :=
  ⟨(C2_theorem [0, 1] MC2w (by decide) (by decide) (by decide) (by decide)).1 0,
   (C2_theorem [0, 1] MC2w (by decide) (by decide) (by decide) (by decide)).2.1⟩

end Autografs
